import Mathlib

/-!
Verification development for the paramMCTS configurator.

The definitions below are shallow embeddings of the Python sources
(`paramMCTS/types.py`, `paramMCTS/runtime.py`, `paramMCTS/configuration.py`).
Python machine floats are modelled as exact rationals; `math.sqrt`,
`math.log` and `random.random()` are passed in as explicit parameters so
that every definition stays computable.
-/

namespace ParamMCTS

/-- Embedding of `types.Assignment`: an immutable pair of a parameter name
and a value (values are modelled as strings). -/
structure Assignment where
  name : String
  value : String
deriving DecidableEq

/-- Embedding of `types.Parameter`: a name, a tuple of possible values and
an optional condition mapping parameter names to permitted values. -/
structure Parameter where
  name : String
  values : List String
  condition : Option (List (String × List String))
deriving DecidableEq

/-- Embedding of `Node.parameter_satisfied` (types.py lines 348-358): a
parameter with no condition is always satisfied; otherwise every entry
`(cname, cvalues)` of the condition must have some `cvalue` such that the
pair `(cname, cvalue)` occurs among the node's assignments. -/
def parameter_satisfied (assignments : List Assignment) (p : Parameter) : Bool :=
  match p.condition with
  | none => true
  | some cond =>
      cond.all fun c =>
        c.2.any fun cvalue =>
          assignments.any fun a => a.name == c.1 && a.value == cvalue

/-- Embedding of `Node.free_parameters` (types.py lines 360-366): the
parameters of the registry whose name is not yet assigned and whose
condition is satisfied by this node. The registry is passed explicitly. -/
def free_parameters (params : List Parameter) (assignments : List Assignment) :
    List Parameter :=
  params.filter fun p =>
    !(assignments.any fun a => a.name == p.name) &&
      parameter_satisfied assignments p

theorem parameter_satisfied_iff (assignments : List Assignment) (p : Parameter) :
    parameter_satisfied assignments p = true ↔
      ∀ cond, p.condition = some cond →
        ∀ c ∈ cond, ∃ a ∈ assignments, a.name = c.1 ∧ a.value ∈ c.2 := by
  unfold parameter_satisfied
  cases hc : p.condition with
  | none => simp
  | some cond =>
      simp only [List.all_eq_true, List.any_eq_true, Bool.and_eq_true, beq_iff_eq,
        Option.some.injEq]
      constructor
      · intro h cond' hcond' c hcmem
        subst hcond'
        obtain ⟨v, hv, a, ha, hname, hval⟩ := h c hcmem
        exact ⟨a, ha, hname, hval ▸ hv⟩
      · intro h c hcmem
        obtain ⟨a, ha, hname, hval⟩ := h cond rfl c hcmem
        exact ⟨a.value, hval, a, ha, hname, rfl⟩

/-- C7: a registered parameter `p` is free for a node exactly when its name
is not among the names of the node's assignments and every dependency of
its condition is met by some assignment of the node. -/
theorem free_parameters_mem_iff (params : List Parameter)
    (assignments : List Assignment) (p : Parameter) (hp : p ∈ params) :
    p ∈ free_parameters params assignments ↔
      (p.name ∉ assignments.map Assignment.name) ∧
      (∀ cond, p.condition = some cond →
        ∀ c ∈ cond, ∃ a ∈ assignments, a.name = c.1 ∧ a.value ∈ c.2) := by
  unfold free_parameters
  rw [List.mem_filter]
  simp only [Bool.and_eq_true, Bool.not_eq_true', List.any_eq_false, beq_iff_eq,
    List.mem_map, hp, true_and]
  rw [parameter_satisfied_iff]
  constructor
  · rintro ⟨h1, h2⟩
    refine ⟨?_, h2⟩
    rintro ⟨a, ha, hname⟩
    exact absurd hname (h1 a ha)
  · rintro ⟨h1, h2⟩
    refine ⟨?_, h2⟩
    intro a ha hname
    exact h1 ⟨a, ha, hname⟩

/-- Witness for C7: with the parameter registry of scenario S2 and the
node `(a=2)`, parameter `b` (which depends on `a ∈ {1,2}`) is free. -/
theorem free_parameters_mem_iff_witness :
    let pa : Parameter := ⟨"a", ["1", "2"], none⟩
    let pb : Parameter := ⟨"b", ["a", "b"], some [("a", ["1", "2"])]⟩
    pb ∈ free_parameters [pa, pb] [⟨"a", "2"⟩] := by
  intro pa pb
  rw [free_parameters_mem_iff [pa, pb] [⟨"a", "2"⟩] pb (by simp)]
  refine ⟨by simp, ?_⟩
  intro cond hcond c hcmem
  simp only [Option.some.injEq] at hcond
  subst hcond
  simp only [List.mem_singleton] at hcmem
  subst hcmem
  exact ⟨⟨"a", "2"⟩, by simp⟩

/-- The kinds of objects `Assignment.__eq__` (types.py lines 150-157) can be
compared against: another `Assignment`, a Python tuple or list of strings,
or an unrelated object. -/
inductive PyOperand where
  | assignObj (b : Assignment)
  | seqObj (l : List String)
  | foreign

/-- Possible outcomes of a Python `__eq__` call: an actual boolean, the
implicit `None` of a fall-through, or `NotImplemented`. -/
inductive PyEqResult where
  | boolRes (v : Bool)
  | noneRes
  | notImplRes
deriving DecidableEq

/-- Embedding of the effective `Assignment.__eq__` (the second definition,
types.py lines 150-157): an `Assignment` compares by both fields; a tuple
or list compares by components only when its length is 2, and otherwise the
method falls off the end, returning Python `None`; any other operand yields
`NotImplemented`. -/
def assignment_eq (a : Assignment) : PyOperand → PyEqResult
  | .assignObj b => .boolRes (a.name == b.name && a.value == b.value)
  | .seqObj l =>
      if l.length = 2 then .boolRes (a.name == l.getD 0 "" && a.value == l.getD 1 "")
      else .noneRes
  | .foreign => .notImplRes

/-- Whether a comparison outcome makes `a == other` hold in a boolean
context. `None` is falsy; `NotImplemented` makes Python fall back to an
identity comparison, which is false for the distinct objects considered
here. -/
def py_eq_holds : PyEqResult → Bool
  | .boolRes v => v
  | .noneRes => false
  | .notImplRes => false

/-- Embedding of `Assignment.__hash__` (types.py lines 159-160), with
Python's opaque tuple hash passed in as `hashPair`. -/
def assignment_hash (hashPair : String × String → Int) (a : Assignment) : Int :=
  hashPair (a.name, a.value)

/-- C10: an `Assignment` equals another exactly when both fields agree;
it equals a 2-element tuple or list exactly when its components agree,
and never equals one of any other length; its hash is the hash of the
`(name, value)` pair, so equal assignments hash equally. -/
theorem assignment_eq_hash_spec (a b : Assignment) (l : List String)
    (hashPair : String × String → Int) :
    (py_eq_holds (assignment_eq a (.assignObj b)) = true ↔
      a.name = b.name ∧ a.value = b.value) ∧
    (l.length = 2 →
      (py_eq_holds (assignment_eq a (.seqObj l)) = true ↔
        a.name = l.getD 0 "" ∧ a.value = l.getD 1 "")) ∧
    (l.length ≠ 2 → py_eq_holds (assignment_eq a (.seqObj l)) = false) ∧
    assignment_hash hashPair a = hashPair (a.name, a.value) ∧
    (py_eq_holds (assignment_eq a (.assignObj b)) = true →
      assignment_hash hashPair a = assignment_hash hashPair b) := by
  refine ⟨by simp [assignment_eq, py_eq_holds], ?_, ?_, rfl, ?_⟩
  · intro hl
    simp [assignment_eq, py_eq_holds, hl]
  · intro hl
    simp [assignment_eq, py_eq_holds, hl]
  · intro h
    simp only [assignment_eq, py_eq_holds, Bool.and_eq_true, beq_iff_eq] at h
    simp [assignment_hash, h.1, h.2]

/-- Witness for C10 at concrete inputs: `a=1` equals the tuple
`("a", "1")` and never equals the 3-tuple `("a", "1", "x")`. -/
theorem assignment_eq_hash_spec_witness :
    py_eq_holds (assignment_eq ⟨"a", "1"⟩ (.seqObj ["a", "1"])) = true ∧
    py_eq_holds (assignment_eq ⟨"a", "1"⟩ (.seqObj ["a", "1", "x"])) = false := by
  constructor
  · exact ((assignment_eq_hash_spec ⟨"a", "1"⟩ ⟨"a", "1"⟩ ["a", "1"]
      (fun _ => 0)).2.1 (by decide)).mpr (by decide)
  · exact (assignment_eq_hash_spec ⟨"a", "1"⟩ ⟨"a", "1"⟩ ["a", "1", "x"]
      (fun _ => 0)).2.2.1 (by decide)

/-- Index of a key in the node store, modelling the dictionary access
`Node.__storage.get(frozenset(assignments))` of types.py line 218. The
store is kept as the list of frozen-set keys in insertion order, and the
index of a key plays the role of the identity of the interned record. -/
def store_lookup (key : Finset Assignment) : List (Finset Assignment) → Option ℕ
  | [] => none
  | k :: ks => if k = key then some 0 else (store_lookup key ks).map (· + 1)

/-- Embedding of `Node.__new__` (types.py lines 215-227) with the default
`save=True`: look the frozen set of the assignments up in the store; on a
hit return the existing record, otherwise append a fresh record. The
returned number identifies the record. -/
def node_new (store : List (Finset Assignment)) (assignments : List Assignment) :
    ℕ × List (Finset Assignment) :=
  match store_lookup assignments.toFinset store with
  | some i => (i, store)
  | none => (store.length, store ++ [assignments.toFinset])

/-- Embedding of `Node.node_count` (types.py lines 294-297). -/
def node_count (store : List (Finset Assignment)) : ℕ :=
  store.length

/-- Run a finite sequence of `Node(S)` constructions against a store,
collecting the returned record identities. -/
def intern_all (store : List (Finset Assignment)) :
    List (List Assignment) → List ℕ × List (Finset Assignment)
  | [] => ([], store)
  | c :: cs =>
      let r := node_new store c
      let rest := intern_all r.2 cs
      (r.1 :: rest.1, rest.2)

theorem store_lookup_some (key : Finset Assignment) (s : List (Finset Assignment))
    (i : ℕ) (h : store_lookup key s = some i) :
    i < s.length ∧ s.getD i ∅ = key := by
  induction s generalizing i with
  | nil => simp [store_lookup] at h
  | cons k ks ih =>
      by_cases hk : k = key
      · subst hk
        simp only [store_lookup, if_true, eq_self_iff_true, Option.some.injEq] at h
        subst h
        simp
      · simp only [store_lookup, if_neg hk] at h
        cases hj : store_lookup key ks with
        | none => rw [hj] at h; simp at h
        | some j =>
            rw [hj] at h
            simp only [Option.map_some', Option.some.injEq] at h
            subst h
            obtain ⟨h1, h2⟩ := ih j hj
            exact ⟨by simpa using Nat.succ_lt_succ h1, by simpa using h2⟩

theorem store_lookup_none (key : Finset Assignment) (s : List (Finset Assignment)) :
    store_lookup key s = none ↔ key ∉ s := by
  induction s with
  | nil => simp [store_lookup]
  | cons k ks ih =>
      by_cases hk : k = key
      · simp [store_lookup, hk]
      · simp only [store_lookup, if_neg hk, Option.map_eq_none', List.mem_cons, ih]
        constructor
        · rintro h (h1 | h2)
          · exact hk h1.symm
          · exact h h2
        · intro h h2
          exact h (Or.inr h2)

theorem node_new_spec (s : List (Finset Assignment)) (a : List Assignment) :
    (∃ t, (node_new s a).2 = s ++ t) ∧
    (s.Nodup → (node_new s a).2.Nodup) ∧
    ((node_new s a).1 < (node_new s a).2.length ∧
      (node_new s a).2.getD (node_new s a).1 ∅ = a.toFinset) ∧
    (node_new s a).2.toFinset = insert a.toFinset s.toFinset := by
  unfold node_new
  cases h : store_lookup a.toFinset s with
  | some i =>
      obtain ⟨h1, h2⟩ := store_lookup_some _ _ _ h
      refine ⟨⟨[], by simp⟩, fun hn => hn, ⟨h1, h2⟩, ?_⟩
      have hmem : a.toFinset ∈ s := by
        rw [← h2]
        rw [List.getD_eq_getElem _ _ h1]
        exact List.getElem_mem h1
      simp [Finset.insert_eq_self.mpr, List.mem_toFinset.mpr hmem,
        Finset.insert_eq_self]
  | none =>
      have hnm : a.toFinset ∉ s := (store_lookup_none _ _).mp h
      refine ⟨⟨[a.toFinset], rfl⟩, ?_, ⟨by simp, ?_⟩,
        by simp [Finset.insert_eq, Finset.union_comm]⟩
      · intro hn
        simp [List.nodup_append, hn, hnm]
      · rw [List.getD_eq_getElem _ _ (by simp)]
        simp

theorem intern_all_spec (calls : List (List Assignment))
    (s : List (Finset Assignment)) (hs : s.Nodup) :
    (intern_all s calls).1.length = calls.length ∧
    (∃ t, (intern_all s calls).2 = s ++ t) ∧
    (intern_all s calls).2.Nodup ∧
    (intern_all s calls).2.toFinset = s.toFinset ∪ (calls.map List.toFinset).toFinset ∧
    ∀ k, k < calls.length →
      (intern_all s calls).1.getD k 0 < (intern_all s calls).2.length ∧
      (intern_all s calls).2.getD ((intern_all s calls).1.getD k 0) ∅ =
        (calls.getD k []).toFinset := by
  induction calls generalizing s with
  | nil => simp [intern_all, hs]
  | cons c cs ih =>
      obtain ⟨⟨t1, ht1⟩, hnodup1, ⟨hlt1, hget1⟩, hfin1⟩ := node_new_spec s c
      obtain ⟨hlen, ⟨t2, ht2⟩, hnodup2, hfin2, hrec⟩ :=
        ih (node_new s c).2 (hnodup1 hs)
      refine ⟨by simpa [intern_all] using hlen, ?_, ?_, ?_, ?_⟩
      · refine ⟨t1 ++ t2, ?_⟩
        have hsnd : (intern_all s (c :: cs)).2 = (intern_all (node_new s c).2 cs).2 := by
          simp [intern_all]
        rw [hsnd, ht2, ht1, List.append_assoc]
      · simpa [intern_all] using hnodup2
      · show (intern_all (node_new s c).2 cs).2.toFinset = _
        rw [hfin2, hfin1]
        simp only [List.map_cons, List.toFinset_cons, Finset.insert_union,
          Finset.union_insert]
      · intro k hk
        cases k with
        | zero =>
            have hi0 : (node_new s c).1 < (intern_all (node_new s c).2 cs).2.length := by
              rw [ht2, List.length_append]
              exact Nat.lt_of_lt_of_le hlt1 (Nat.le_add_right _ _)
            constructor
            · simpa [intern_all] using hi0
            · show (intern_all s (c :: cs)).2.getD
                ((intern_all s (c :: cs)).1.getD 0 0) ∅ = c.toFinset
              have heq : (intern_all s (c :: cs)).2.getD
                  ((intern_all s (c :: cs)).1.getD 0 0) ∅ =
                  (intern_all (node_new s c).2 cs).2.getD ((node_new s c).1) ∅ := by
                simp [intern_all]
              rw [heq, ht2, List.getD_eq_getElem _ _ (by
                rw [List.length_append]
                exact Nat.lt_of_lt_of_le hlt1 (Nat.le_add_right _ _))]
              rw [List.getElem_append_left hlt1]
              rw [List.getD_eq_getElem _ _ hlt1] at hget1
              exact hget1
        | succ k =>
            have hk' : k < cs.length := by simpa using hk
            obtain ⟨h1, h2⟩ := hrec k hk'
            exact ⟨by simpa [intern_all] using h1, by simpa [intern_all] using h2⟩


/-- C2: for any finite sequence of `Node(S)` constructions, two calls whose
assignment sequences are equal as sets return the identity of the same
stored record, and `node_count()` equals the number of distinct assignment
sets constructed. -/
theorem node_interning (calls : List (List Assignment)) (i j : ℕ)
    (hi : i < calls.length) (hj : j < calls.length)
    (hset : (calls.getD i []).toFinset = (calls.getD j []).toFinset) :
    (intern_all [] calls).1.getD i 0 = (intern_all [] calls).1.getD j 0 ∧
    node_count (intern_all [] calls).2 = (calls.map List.toFinset).dedup.length := by
  obtain ⟨hlen, -, hnodup, hfin, hrec⟩ := intern_all_spec calls [] (by simp)
  constructor
  · obtain ⟨hi1, hi2⟩ := hrec i hi
    obtain ⟨hj1, hj2⟩ := hrec j hj
    have hsame : (intern_all [] calls).2.getD ((intern_all [] calls).1.getD i 0) ∅ =
        (intern_all [] calls).2.getD ((intern_all [] calls).1.getD j 0) ∅ := by
      rw [hi2, hj2, hset]
    rw [List.getD_eq_getElem _ _ hi1, List.getD_eq_getElem _ _ hj1] at hsame
    exact (List.Nodup.getElem_inj_iff hnodup).mp hsame
  · unfold node_count
    have h1 : (intern_all [] calls).2.toFinset.card = (intern_all [] calls).2.length :=
      List.toFinset_card_of_nodup hnodup
    have h2 : (calls.map List.toFinset).dedup.toFinset.card =
        (calls.map List.toFinset).dedup.length :=
      List.toFinset_card_of_nodup (calls.map List.toFinset).nodup_dedup
    have h3 : (calls.map List.toFinset).dedup.toFinset =
        (calls.map List.toFinset).toFinset := by
      ext x
      simp [List.mem_dedup]
    rw [← h1, ← h2, h3, hfin]
    simp

/-- Witness for C2: the two constructions `Node([a=1, b=2])` and
`Node([b=2, a=1])` have set-equal assignments, return the same record, and
leave a store of exactly one node. -/
theorem node_interning_witness :
    (intern_all []
        [[⟨"a", "1"⟩, ⟨"b", "2"⟩], [⟨"b", "2"⟩, ⟨"a", "1"⟩]]).1.getD 0 0 =
      (intern_all []
        [[⟨"a", "1"⟩, ⟨"b", "2"⟩], [⟨"b", "2"⟩, ⟨"a", "1"⟩]]).1.getD 1 0 ∧
    node_count (intern_all []
        [[⟨"a", "1"⟩, ⟨"b", "2"⟩], [⟨"b", "2"⟩, ⟨"a", "1"⟩]]).2 =
      (([[⟨"a", "1"⟩, ⟨"b", "2"⟩],
         [⟨"b", "2"⟩, ⟨"a", "1"⟩]] : List (List Assignment)).map
        List.toFinset).dedup.length :=
  node_interning [[⟨"a", "1"⟩, ⟨"b", "2"⟩], [⟨"b", "2"⟩, ⟨"a", "1"⟩]] 0 1
    (by decide) (by decide) (by decide)

/-- A stored MCTS node as `Master._update` sees it: the assignment tuple
together with the mutable `value` and `visits` counters of types.py. -/
structure MNode where
  assignments : List Assignment
  value : ℚ
  visits : ℕ
deriving DecidableEq

/-- Embedding of the runtime `Leaf` (types.py lines 167-194): the expanded
child node together with the full rollout assignment list. -/
structure MLeaf where
  node : MNode
  assignment : List Assignment
deriving DecidableEq

/-- Embedding of the `Result` named tuple (runtime.py line 29); a `none`
value encodes a timeout. -/
structure MResult where
  node : MNode
  value : Option ℚ
deriving DecidableEq

/-- Embedding of `Executor._process` (runtime.py line 272): the executor
sends `Result(leaf.node, value)` back to the master, i.e. the expanded
child node, not the full rollout assignment. -/
def executor_result (leaf : MLeaf) (value : Option ℚ) : MResult :=
  ⟨leaf.node, value⟩

/-- The reward computed by `Master._update` (runtime.py lines 137-138):
the measured value when present, `penalty * timeout` on timeout. -/
def update_value (resultValue : Option ℚ) (penalty timeout : ℚ) : ℚ :=
  match resultValue with
  | some v => v
  | none => penalty * timeout

/-- Default of the `penalty` argument of `Master.__init__`
(runtime.py line 57). -/
def default_penalty : ℚ := 3

/-- Core loop of `Master._update` (runtime.py lines 141-147): every stored
node whose assignment set is contained in `leafSet` has its visits
incremented by one and its value increased by `v`; all others are left
unchanged. -/
def master_update (store : List MNode) (leafSet : Finset Assignment) (v : ℚ) :
    List MNode :=
  store.map fun n =>
    if n.assignments.toFinset ⊆ leafSet then
      ⟨n.assignments, n.value + v, n.visits + 1⟩
    else n

/-- Embedding of `Master._update` (runtime.py lines 134-148): the subset
test is keyed on `frozenset(result.node.assignments)`. -/
def master_update_result (penalty timeout : ℚ) (store : List MNode)
    (r : MResult) : List MNode :=
  master_update store r.node.assignments.toFinset (update_value r.value penalty timeout)

/-- Fold a list of rollout results through the master's back-propagation. -/
def run_backprops (penalty timeout : ℚ) (store : List MNode)
    (rs : List (MLeaf × Option ℚ)) : List MNode :=
  rs.foldl (fun st r => master_update_result penalty timeout st (executor_result r.1 r.2)) store

theorem master_update_length (store : List MNode) (L : Finset Assignment) (v : ℚ) :
    (master_update store L v).length = store.length := by
  simp [master_update]

theorem master_update_getD (store : List MNode) (L : Finset Assignment) (v : ℚ)
    (i : ℕ) (hi : i < store.length) :
    (master_update store L v).getD i ⟨[], 0, 0⟩ =
      if (store.getD i ⟨[], 0, 0⟩).assignments.toFinset ⊆ L then
        ⟨(store.getD i ⟨[], 0, 0⟩).assignments,
         (store.getD i ⟨[], 0, 0⟩).value + v,
         (store.getD i ⟨[], 0, 0⟩).visits + 1⟩
      else store.getD i ⟨[], 0, 0⟩ := by
  rw [List.getD_eq_getElem _ _ hi,
    List.getD_eq_getElem _ _ (by simpa [master_update_length] using hi)]
  simp [master_update]

/-- C1 counterexample: the executor reports `Result(leaf.node, value)` and
the master keys the subset test on the child node's assignments, so the
interned node `{b=1}`, although a subset of the leaf's full assignment set
`{a=1, b=1}`, is not updated (its visits stay 0 instead of becoming 1). -/
theorem backprop_full_set_counterexample :
    (([⟨"b", "1"⟩] : List Assignment).toFinset ⊆
      ([⟨"a", "1"⟩, ⟨"b", "1"⟩] : List Assignment).toFinset) ∧
    (master_update_result default_penalty 600
        [⟨[], 0, 0⟩, ⟨[⟨"a", "1"⟩], 0, 0⟩, ⟨[⟨"b", "1"⟩], 0, 0⟩]
        (executor_result ⟨⟨[⟨"a", "1"⟩], 0, 0⟩, [⟨"a", "1"⟩, ⟨"b", "1"⟩]⟩ (some 5))).getD 2
        ⟨[], 0, 0⟩ =
      ⟨[⟨"b", "1"⟩], 0, 0⟩ := by
  decide

/-- C1 (amended): back-propagation is keyed on the expanded child node's
assignment set carried in the result, and after any sequence of updates
each stored node's visits count the results whose key set contains its
assignment set while its value accumulates the corresponding rewards. -/
theorem backprop_additivity (penalty timeout : ℚ) (store : List MNode)
    (rs : List (MLeaf × Option ℚ)) (i : ℕ) (hi : i < store.length) :
    (run_backprops penalty timeout store rs).getD i ⟨[], 0, 0⟩ =
      ⟨(store.getD i ⟨[], 0, 0⟩).assignments,
       (store.getD i ⟨[], 0, 0⟩).value +
         ((rs.filter fun r =>
            (store.getD i ⟨[], 0, 0⟩).assignments.toFinset ⊆
              r.1.node.assignments.toFinset).map
           fun r => update_value r.2 penalty timeout).sum,
       (store.getD i ⟨[], 0, 0⟩).visits +
         (rs.filter fun r =>
           (store.getD i ⟨[], 0, 0⟩).assignments.toFinset ⊆
             r.1.node.assignments.toFinset).length⟩ := by
  induction rs generalizing store with
  | nil =>
      simp only [run_backprops, List.foldl_nil, List.filter_nil, List.map_nil,
        List.sum_nil, List.length_nil, add_zero]
  | cons r rs ih =>
      have hstep : run_backprops penalty timeout store (r :: rs) =
          run_backprops penalty timeout
            (master_update_result penalty timeout store (executor_result r.1 r.2)) rs := by
        simp [run_backprops]
      rw [hstep, ih _ (by simpa [master_update_result, master_update_length] using hi)]
      rw [show master_update_result penalty timeout store (executor_result r.1 r.2) =
        master_update store r.1.node.assignments.toFinset
          (update_value r.2 penalty timeout) from rfl]
      rw [master_update_getD store _ _ i hi]
      by_cases hsub : (store.getD i ⟨[], 0, 0⟩).assignments.toFinset ⊆
          r.1.node.assignments.toFinset
      · rw [if_pos hsub]
        rw [List.filter_cons_of_pos (by simpa using hsub)]
        simp only [List.map_cons, List.sum_cons, List.length_cons, MNode.mk.injEq]
        refine ⟨by trivial, by ring, by omega⟩
      · rw [if_neg hsub]
        rw [List.filter_cons_of_neg (by simpa using hsub)]

/-- Witness for C1 (amended) at a concrete store and result list. -/
theorem backprop_additivity_witness :
    (run_backprops default_penalty 600
        [⟨[], 0, 0⟩, ⟨[⟨"a", "1"⟩], 0, 0⟩]
        [(⟨⟨[⟨"a", "1"⟩], 0, 0⟩, [⟨"a", "1"⟩, ⟨"b", "1"⟩]⟩, some 5)]).getD 0 ⟨[], 0, 0⟩ =
      ⟨[], 5, 1⟩ := by
  have h := backprop_additivity default_penalty 600
    [⟨[], 0, 0⟩, ⟨[⟨"a", "1"⟩], 0, 0⟩]
    [(⟨⟨[⟨"a", "1"⟩], 0, 0⟩, [⟨"a", "1"⟩, ⟨"b", "1"⟩]⟩, some 5)] 0 (by decide)
  rw [h]
  simp [update_value, MNode.mk.injEq, List.filter_cons]

/-- C8: on a timeout result the reward applied to every updated node is
exactly `penalty * timeout`, a measured result is applied unchanged, and
the penalty defaults to 3. -/
theorem penalty_substitution (penalty timeout v : ℚ) (store : List MNode)
    (leaf : MLeaf) (i : ℕ) (hi : i < store.length) :
    ((master_update_result penalty timeout store (executor_result leaf none)).getD i
        ⟨[], 0, 0⟩).value =
      (store.getD i ⟨[], 0, 0⟩).value +
        (if (store.getD i ⟨[], 0, 0⟩).assignments.toFinset ⊆
            leaf.node.assignments.toFinset then penalty * timeout else 0) ∧
    ((master_update_result penalty timeout store (executor_result leaf (some v))).getD i
        ⟨[], 0, 0⟩).value =
      (store.getD i ⟨[], 0, 0⟩).value +
        (if (store.getD i ⟨[], 0, 0⟩).assignments.toFinset ⊆
            leaf.node.assignments.toFinset then v else 0) ∧
    default_penalty = 3 := by
  refine ⟨?_, ?_, rfl⟩
  · rw [show master_update_result penalty timeout store (executor_result leaf none) =
      master_update store leaf.node.assignments.toFinset (penalty * timeout) from rfl]
    rw [master_update_getD store _ _ i hi]
    by_cases hsub : (store.getD i ⟨[], 0, 0⟩).assignments.toFinset ⊆
        leaf.node.assignments.toFinset
    · rw [if_pos hsub, if_pos hsub]
    · rw [if_neg hsub, if_neg hsub, add_zero]
  · rw [show master_update_result penalty timeout store (executor_result leaf (some v)) =
      master_update store leaf.node.assignments.toFinset v from rfl]
    rw [master_update_getD store _ _ i hi]
    by_cases hsub : (store.getD i ⟨[], 0, 0⟩).assignments.toFinset ⊆
        leaf.node.assignments.toFinset
    · rw [if_pos hsub, if_pos hsub]
    · rw [if_neg hsub, if_neg hsub, add_zero]

/-- Witness for C8: a timeout result against the root with `penalty = 3`
and `timeout = 600` adds a reward of 1800. -/
theorem penalty_substitution_witness :
    ((master_update_result 3 600 [⟨[], 0, 0⟩]
        (executor_result ⟨⟨[], 0, 0⟩, []⟩ none)).getD 0 ⟨[], 0, 0⟩).value =
      (([⟨[], 0, 0⟩] : List MNode).getD 0 ⟨[], 0, 0⟩).value +
        (if ((([⟨[], 0, 0⟩] : List MNode).getD 0
            ⟨[], 0, 0⟩).assignments.toFinset ⊆
            (⟨⟨[], 0, 0⟩, []⟩ : MLeaf).node.assignments.toFinset) then
          3 * 600 else 0) :=
  (penalty_substitution 3 600 0 [⟨[], 0, 0⟩] ⟨⟨[], 0, 0⟩, []⟩ 0 (by decide)).1

/-- The child assignment sequences created by `Node.generate_childs`
(types.py lines 376-380): one child per value of every free parameter, via
`Node.child` which appends the new assignment (types.py lines 387-389). -/
def gen_child_lists (params : List Parameter) (assignments : List Assignment) :
    List (List Assignment) :=
  (free_parameters params assignments).flatMap fun p =>
    p.values.map fun v => assignments ++ [⟨p.name, v⟩]

/-- A node as `generate_childs` mutates it: the assignment tuple plus the
optional frozen set of children, children being identified by their
assignment sets exactly as the interning store does. -/
structure GNode where
  assignments : List Assignment
  childs : Option (Finset (Finset Assignment))
deriving DecidableEq

/-- Embedding of `Node.generate_childs` (types.py lines 368-385). A failing
`assert self.childs is None` is modelled as `none`. Otherwise the result
carries the updated node and the assignment list of the chosen child
(`pick` resolves `random.choice`), or the unchanged node itself when no
child was created. -/
def generate_childs (params : List Parameter) (pick : ℕ) (n : GNode) :
    Option (GNode × List Assignment) :=
  match n.childs with
  | some _ => none
  | none =>
      let cs := gen_child_lists params n.assignments
      if cs.isEmpty then some (n, n.assignments)
      else
        some (⟨n.assignments, some (cs.map List.toFinset).toFinset⟩,
          cs.getD (pick % cs.length) [])

/-- C3 counterexample: on a node with no free parameters (empty registry)
`generate_childs` returns the node itself with `childs` still undefined,
and a second call succeeds instead of violating the precondition. -/
theorem generate_childs_terminal_counterexample :
    generate_childs [] 0 ⟨[], none⟩ = some (⟨[], none⟩, []) ∧
    GNode.childs ⟨[], none⟩ = none ∧
    generate_childs [] 0 ⟨[], none⟩ ≠ none := by
  refine ⟨by decide, rfl, by decide⟩

/-- C3 (amended): from an unexpanded node, if children are to be created
then `generate_childs` defines `childs` as exactly the set of extensions of
the node by one value of one free parameter and a second call violates the
precondition; if no child is created the unchanged node itself is returned
as the expansion target, with `childs` left undefined. -/
theorem generate_childs_spec (params : List Parameter) (pick : ℕ) (n : GNode)
    (h : n.childs = none) :
    (gen_child_lists params n.assignments = [] →
      generate_childs params pick n = some (n, n.assignments)) ∧
    (gen_child_lists params n.assignments ≠ [] →
      generate_childs params pick n =
        some (⟨n.assignments,
            some ((gen_child_lists params n.assignments).map List.toFinset).toFinset⟩,
          (gen_child_lists params n.assignments).getD
            (pick % (gen_child_lists params n.assignments).length) [])) ∧
    (∀ s : Finset Assignment,
      s ∈ ((gen_child_lists params n.assignments).map List.toFinset).toFinset ↔
        ∃ p ∈ free_parameters params n.assignments, ∃ v ∈ p.values,
          s = (n.assignments ++ [(⟨p.name, v⟩ : Assignment)]).toFinset) ∧
    (∀ pick2 : ℕ, ∀ cset : Finset (Finset Assignment),
      generate_childs params pick2 ⟨n.assignments, some cset⟩ = none) := by
  refine ⟨?_, ?_, ?_, ?_⟩
  · intro hempty
    simp [generate_childs, h, hempty]
  · intro hne
    simp only [generate_childs, h]
    rw [if_neg (by simpa [List.isEmpty_iff] using hne)]
  · intro s
    simp only [List.mem_toFinset, List.mem_map, gen_child_lists, List.mem_flatMap]
    constructor
    · rintro ⟨l, ⟨p, hp, ⟨v, hv, rfl⟩⟩, rfl⟩
      exact ⟨p, hp, v, hv, rfl⟩
    · rintro ⟨p, hp, v, hv, rfl⟩
      exact ⟨n.assignments ++ [⟨p.name, v⟩], ⟨p, hp, v, hv, rfl⟩, rfl⟩
  · intro pick2 cset
    simp [generate_childs]

/-- Witness for C3 (amended): with a single unconditioned parameter
`a ∈ {1, 2}` the root expands. -/
theorem generate_childs_spec_witness :
    generate_childs [⟨"a", ["1", "2"], none⟩] 0 ⟨[], none⟩ =
      some (⟨[],
          some ((gen_child_lists [⟨"a", ["1", "2"], none⟩] []).map
            List.toFinset).toFinset⟩,
        (gen_child_lists [⟨"a", ["1", "2"], none⟩] []).getD
          (0 % (gen_child_lists [⟨"a", ["1", "2"], none⟩] []).length) []) :=
  (generate_childs_spec [⟨"a", ["1", "2"], none⟩] 0 ⟨[], none⟩ rfl).2.1
    (by decide)

/-- Embedding of `types.EPSILON = sys.float_info.epsilon` (types.py line
20): the IEEE-754 double machine epsilon, exactly 2 to the power -52. -/
def EPSILON : ℚ :=
  1 / 2 ^ 52

/-- The smallest positive normal IEEE-754 double, exactly 2 to the power
-1022: the constant the specification calls `ε`. -/
def smallest_positive_normal : ℚ :=
  1 / 2 ^ 1022

/-- Embedding of `types.UCT_C = math.sqrt(2)` (types.py line 18), with
`math.sqrt` passed in as `sqrtFn`. -/
def UCT_C (sqrtFn : ℚ → ℚ) : ℚ :=
  sqrtFn 2

/-- Embedding of `Node.uct` (types.py lines 331-346) over exact rationals.
`sqrtFn` and `logFn` stand for `math.sqrt` and `math.log`, `rnd` for the
sampled `random.random()`, and the remaining arguments mirror
`parent.value`, `parent.visits`, `self.value` and `self.visits`. -/
def uct (sqrtFn logFn : ℚ → ℚ) (rnd pValue pVisits cValue cVisits : ℚ)
    (real : Bool) : ℚ :=
  if real then
    if cVisits = 0 then 0
    else
      let visits := cVisits
      let value := pValue / pVisits - cValue / visits
      let rand := 0
      value / visits + rand + UCT_C sqrtFn * sqrtFn (logFn (pVisits + 1) / visits)
  else
    let visits := cVisits + EPSILON
    let value := pValue / (pVisits + EPSILON) - cValue / visits
    let rand := EPSILON * rnd
    value / visits + rand + UCT_C sqrtFn * sqrtFn (logFn (pVisits + 1) / visits)

/-- Modelled from the spec's words for C5: the section 4.E formula
`value / (child.visits + ε) + bonus + C * sqrt(ln(parent.visits + 1) /
(child.visits + ε))` with `ε` the smallest positive normal float, the
value term being parent mean minus child mean, and the deterministic
variant returning 0 at zero visits, omitting the jitter and dropping the
ε. -/
def uct_claimed (sqrtFn logFn : ℚ → ℚ) (rnd pValue pVisits cValue cVisits : ℚ)
    (real : Bool) : ℚ :=
  if real then
    if cVisits = 0 then 0
    else
      (pValue / pVisits - cValue / cVisits) / cVisits +
        UCT_C sqrtFn * sqrtFn (logFn (pVisits + 1) / cVisits)
  else
    (pValue / (pVisits + smallest_positive_normal) -
        cValue / (cVisits + smallest_positive_normal)) /
      (cVisits + smallest_positive_normal) +
      smallest_positive_normal * rnd +
      UCT_C sqrtFn * sqrtFn (logFn (pVisits + 1) / (cVisits + smallest_positive_normal))

/-- The claim's UCT formula amended to use the epsilon the code actually
uses: the machine epsilon `sys.float_info.epsilon` = 2^-52. -/
def uct_amended (sqrtFn logFn : ℚ → ℚ) (rnd pValue pVisits cValue cVisits : ℚ)
    (real : Bool) : ℚ :=
  if real then
    if cVisits = 0 then 0
    else
      (pValue / pVisits - cValue / cVisits) / cVisits +
        UCT_C sqrtFn * sqrtFn (logFn (pVisits + 1) / cVisits)
  else
    (pValue / (pVisits + EPSILON) - cValue / (cVisits + EPSILON)) / (cVisits + EPSILON) +
      EPSILON * rnd +
      UCT_C sqrtFn * sqrtFn (logFn (pVisits + 1) / (cVisits + EPSILON))

/-- C5 counterexample: at a fresh parent and child (all values and visit
counts 0, jitter sample 1) the code's UCT differs from the claimed formula,
because `types.EPSILON` is the machine epsilon 2^-52 and not the smallest
positive normal float 2^-1022. -/
theorem uct_epsilon_counterexample :
    uct (fun _ => 0) (fun x => x) 1 0 0 0 0 false ≠
      uct_claimed (fun _ => 0) (fun x => x) 1 0 0 0 0 false := by
  norm_num [uct, uct_claimed, UCT_C, EPSILON, smallest_positive_normal]

/-- C5 (amended): the code's UCT agrees everywhere with the claimed
formula once `ε` is read as the machine epsilon 2^-52; in particular the
value term is negated (parent mean minus child mean) and the deterministic
variant returns 0 at zero visits, omits the jitter and drops the ε. The
machine epsilon is distinct from the smallest positive normal float. -/
theorem uct_formula (sqrtFn logFn : ℚ → ℚ)
    (rnd pValue pVisits cValue cVisits : ℚ) (real : Bool) :
    uct sqrtFn logFn rnd pValue pVisits cValue cVisits real =
      uct_amended sqrtFn logFn rnd pValue pVisits cValue cVisits real ∧
    EPSILON ≠ smallest_positive_normal := by
  constructor
  · unfold uct uct_amended
    cases real with
    | true =>
        by_cases h0 : cVisits = 0
        · simp [h0]
        · simp only [if_neg h0, if_true]
          ring
    | false => simp
  · norm_num [EPSILON, smallest_positive_normal]

/-- Witness for C5 (amended) at a concrete input: the deterministic
variant on a visits-zero child returns 0. -/
theorem uct_formula_witness :
    uct (fun _ => 0) (fun x => x) 1 3 2 1 0 true =
      uct_amended (fun _ => 0) (fun x => x) 1 3 2 1 0 true ∧
    EPSILON ≠ smallest_positive_normal :=
  uct_formula (fun _ => 0) (fun x => x) 1 3 2 1 0 true

/-- Errors raised during callstring assignment (configuration.py lines
157-164): `ArgumentError` for an unresolvable required argument and
`VariableError` for an unresolvable required variable. -/
inductive CallstrErr where
  | variableErr (name : String)
  | argumentErr (flag : String)
deriving DecidableEq

/-- A parsed callstring variable `(optional, name)` (configuration.py
lines 205-208). -/
structure CVar where
  opt : Bool
  name : String
deriving DecidableEq

/-- A parsed callstring argument `(optional, flag, variables)`
(configuration.py lines 205-208). -/
structure CArg where
  opt : Bool
  flag : String
  vars : List CVar
deriving DecidableEq

/-- First-match lookup in a string map, modelling Python dict access. -/
def lookupStr (m : List (String × String)) (k : String) : Option String :=
  (m.find? fun e => e.1 == k).map fun e => e.2

/-- Embedding of `Callstring._format_var` (configuration.py lines
241-251): the template's constants take precedence over the assignment
map; a miss on both raises `VariableError` when the variable is required
and contributes the empty string when it is optional. -/
def format_var (constants assignment : List (String × String)) (v : CVar) :
    Except CallstrErr String :=
  match lookupStr constants v.name with
  | some s => .ok s
  | none =>
      match lookupStr assignment v.name with
      | some s => .ok s
      | none => if !v.opt then .error (.variableErr v.name) else .ok ""

/-- Embedding of `Callstring._format` (configuration.py lines 222-239):
resolve every variable in order (a `VariableError` propagates out of a
required argument but is silently dropped for an optional one), join the
non-empty resolutions with commas, raise `ArgumentError` on an empty join
for a required argument, skip an optional one, and otherwise prepend the
flag. -/
def format_vars (constants assignment : List (String × String)) :
    List CVar → Except CallstrErr (List String)
  | [] => .ok []
  | v :: vs =>
      match format_var constants assignment v with
      | .error e => .error e
      | .ok s =>
          match format_vars constants assignment vs with
          | .error e => .error e
          | .ok rest => .ok (s :: rest)

def format_arg (constants assignment : List (String × String)) (arg : CArg) :
    Except CallstrErr String :=
  match format_vars constants assignment arg.vars with
  | .error e => if !arg.opt then .error e else .ok ""
  | .ok vstrs =>
      let joined := String.intercalate "," (vstrs.filter fun s => s ≠ "")
      if joined = "" then
        if !arg.opt then .error (.argumentErr arg.flag) else .ok ""
      else .ok (arg.flag ++ joined)

/-- Embedding of `Callstring.assign` (configuration.py lines 210-220):
format every argument and join the surviving ones with single spaces. -/
def callstring_assign (constants : List (String × String))
    (template : List CArg) (assignment : List (String × String)) :
    Except CallstrErr String :=
  (template.mapM (format_arg constants assignment)).map fun elems =>
    String.intercalate " " (elems.filter fun s => s ≠ "")

/-- C6: variables resolve from the template constants first and the
assignment map second; a required variable resolving in neither raises
`VariableError` while an optional one contributes nothing; a
`VariableError` propagates out of a required argument and is silently
dropped for an optional one; an argument none of whose variables resolve
raises `ArgumentError` when required and is skipped when optional. -/
theorem callstring_resolution (constants assignment : List (String × String))
    (v : CVar) (arg : CArg) (s : String) (e : CallstrErr) (vstrs : List String) :
    (lookupStr constants v.name = some s →
      format_var constants assignment v = .ok s) ∧
    (lookupStr constants v.name = none → lookupStr assignment v.name = some s →
      format_var constants assignment v = .ok s) ∧
    (lookupStr constants v.name = none → lookupStr assignment v.name = none →
      v.opt = false →
      format_var constants assignment v = .error (.variableErr v.name)) ∧
    (lookupStr constants v.name = none → lookupStr assignment v.name = none →
      v.opt = true → format_var constants assignment v = .ok "") ∧
    (format_vars constants assignment arg.vars = .error e →
      arg.opt = false → format_arg constants assignment arg = .error e) ∧
    (format_vars constants assignment arg.vars = .error e →
      arg.opt = true → format_arg constants assignment arg = .ok "") ∧
    (format_vars constants assignment arg.vars = .ok vstrs →
      vstrs.filter (fun t => t ≠ "") = [] → arg.opt = false →
      format_arg constants assignment arg = .error (.argumentErr arg.flag)) ∧
    (format_vars constants assignment arg.vars = .ok vstrs →
      vstrs.filter (fun t => t ≠ "") = [] → arg.opt = true →
      format_arg constants assignment arg = .ok "") := by
  refine ⟨?_, ?_, ?_, ?_, ?_, ?_, ?_, ?_⟩
  · intro h1
    simp [format_var, h1]
  · intro h1 h2
    simp [format_var, h1, h2]
  · intro h1 h2 h3
    simp [format_var, h1, h2, h3]
  · intro h1 h2 h3
    simp [format_var, h1, h2, h3]
  · intro h1 h2
    simp [format_arg, h1, h2]
  · intro h1 h2
    simp [format_arg, h1, h2]
  · intro h1 h2 h3
    simp only [ne_eq, decide_not] at h2
    simp [format_arg, h1, h2, h3, String.intercalate]
  · intro h1 h2 h3
    simp only [ne_eq, decide_not] at h2
    simp [format_arg, h1, h2, h3, String.intercalate]

/-- Witness for C6 on scenario S1 data: the constant `num` resolves from
the constants even though the assignment map binds it differently, a
missing required variable `ins-file` errors, and the required argument
`--test=` with only empty resolutions errors. -/
theorem callstring_resolution_witness :
    format_var [("num", "1")] [("num", "7")] ⟨false, "num"⟩ = .ok "1" ∧
    format_var [("num", "1")] [] ⟨false, "ins-file"⟩ =
      .error (.variableErr "ins-file") ∧
    format_arg [] [("a", ""), ("b", "")] ⟨false, "--test=", [⟨false, "a"⟩, ⟨false, "b"⟩]⟩ =
      .error (.argumentErr "--test=") := by
  refine ⟨?_, ?_, ?_⟩
  · exact (callstring_resolution [("num", "1")] [("num", "7")] ⟨false, "num"⟩
      ⟨false, "", []⟩ "1" (.variableErr "") []).1 (by decide)
  · exact (callstring_resolution [("num", "1")] [] ⟨false, "ins-file"⟩
      ⟨false, "", []⟩ "" (.variableErr "") []).2.2.1 (by decide) (by decide) rfl
  · exact (callstring_resolution [] [("a", ""), ("b", "")] ⟨false, ""⟩
      ⟨false, "--test=", [⟨false, "a"⟩, ⟨false, "b"⟩]⟩ "" (.variableErr "")
      ["", ""]).2.2.2.2.2.2.1 rfl (by decide) rfl

/-- First-match lookup of a parameter by name, modelling
`Parameter.__storage.get(name, None)` (types.py line 42). -/
def lookup_param (storage : List (String × Parameter)) (name : String) :
    Option Parameter :=
  (storage.find? fun e => e.1 == name).map fun e => e.2

/-- Embedding of `Parameter.__new__` (types.py lines 41-50): a hit on the
name returns the stored parameter and leaves the registry unchanged, with
the new `values` and `condition` arguments ignored; a miss requires values
(the failing `assert` is modelled as `none`) and appends the freshly built
parameter to the registry. -/
def parameter_new (storage : List (String × Parameter)) (name : String)
    (values : Option (List String))
    (condition : Option (List (String × List String))) :
    Option (Parameter × List (String × Parameter)) :=
  match lookup_param storage name with
  | some p => some (p, storage)
  | none =>
      match values with
      | none => none
      | some vs => some (⟨name, vs, condition⟩, storage ++ [(name, ⟨name, vs, condition⟩)])

/-- C9: constructing a `Parameter` whose name is already registered
returns the existing object unchanged, ignoring the values and condition
of the second construction, and no construction ever removes an entry
from the registry. -/
theorem parameter_interning (storage : List (String × Parameter))
    (name : String) (values : Option (List String))
    (condition : Option (List (String × List String))) (p0 : Parameter) :
    (lookup_param storage name = some p0 →
      parameter_new storage name values condition = some (p0, storage)) ∧
    (∀ p st, parameter_new storage name values condition = some (p, st) →
      ∀ e ∈ storage, e ∈ st) := by
  constructor
  · intro h
    simp [parameter_new, h]
  · intro p st h e he
    unfold parameter_new at h
    cases hl : lookup_param storage name with
    | some q =>
        rw [hl] at h
        simp only [Option.some.injEq, Prod.mk.injEq] at h
        rw [← h.2]
        exact he
    | none =>
        rw [hl] at h
        cases values with
        | none => simp at h
        | some vs =>
            simp only [Option.some.injEq, Prod.mk.injEq] at h
            rw [← h.2]
            exact List.mem_append_left _ he

/-- Witness for C9: re-constructing parameter `a` with different values
and a condition returns the original record and leaves the registry
untouched. -/
theorem parameter_interning_witness :
    parameter_new [("a", ⟨"a", ["1", "2"], none⟩)] "a" (some ["9"])
      (some [("b", ["1"])]) =
      some (⟨"a", ["1", "2"], none⟩, [("a", ⟨"a", ["1", "2"], none⟩)]) :=
  (parameter_interning [("a", ⟨"a", ["1", "2"], none⟩)] "a" (some ["9"])
    (some [("b", ["1"])]) ⟨"a", ["1", "2"], none⟩).1 rfl

/-- Queue capacity chosen by `Master.__init__` (runtime.py line 63):
`mpi['size'] * 2`, where `size` counts the master rank plus all executor
ranks. -/
def task_queue_capacity (size : ℕ) : ℕ :=
  size * 2

/-- Number of executors the master talks to (runtime.py line 73): the
destinations range over the ranks `1 .. size-1`. -/
def executor_count (size : ℕ) : ℕ :=
  size - 1

/-- High water mark of `Master.run` (runtime.py line 107). -/
def task_upper_bound (size : ℕ) : ℕ :=
  size

/-- Low water mark of `Master.run` (runtime.py line 108),
`math.ceil(size / 2)`. -/
def task_lower_bound (size : ℕ) : ℕ :=
  (size + 1) / 2

/-- Lengths reachable by a bounded blocking queue started empty: a put
completes only strictly below capacity and a get only on a non-empty
queue. -/
inductive QueueReachable (cap : ℕ) : ℕ → Prop
  | empty : QueueReachable cap 0
  | put {q : ℕ} : QueueReachable cap q → q < cap → QueueReachable cap (q + 1)
  | take {q : ℕ} : QueueReachable cap q → 0 < q → QueueReachable cap (q - 1)

/-- Guard of the drain loop of `Master.run` (runtime.py lines 118-119):
keep polling while the queue is above the low water mark and the
terminate flag is unset. -/
def drain_guard (lower qsize : ℕ) (terminate : Bool) : Bool :=
  decide (lower < qsize) && !terminate

/-- The drain loop run over the successive `(qsize, terminate)`
observations of its guard: it exits at the first observation failing the
guard. -/
def drain_exit (lower : ℕ) : List (ℕ × Bool) → Option (ℕ × Bool)
  | [] => none
  | ob :: obs => if drain_guard lower ob.1 ob.2 then drain_exit lower obs else some ob

/-- C4 counterexample: with an MPI world of size 3 there are `W = 2`
executors but the task queue is created with capacity 6, not `2 W = 4`;
and with size 5 (`W = 4`) the drain cycle exits at queue length 3, which
exceeds the claimed low water mark of 2 while terminate is unset. -/
theorem master_queue_counterexample :
    executor_count 3 = 2 ∧
    task_queue_capacity 3 = 6 ∧
    task_queue_capacity 3 ≠ 2 * executor_count 3 ∧
    executor_count 5 = 4 ∧
    (executor_count 5 + 1) / 2 = 2 ∧
    drain_exit (task_lower_bound 5) [(3, false)] = some (3, false) ∧
    2 < 3 := by
  decide

/-- C4 (amended): the task queue capacity is `2 * (W + 1)` for `W`
executors (twice the MPI world size, master included); the queue length
stays within `[0, 2 (W + 1)]`; and the drain cycle only exits when the
length is at most `ceil((W + 1) / 2)` or terminate is set. -/
theorem master_queue_bounds (size q qe : ℕ) (te : Bool)
    (obs : List (ℕ × Bool)) (hsize : 1 ≤ size) :
    task_queue_capacity size = 2 * (executor_count size + 1) ∧
    (QueueReachable (task_queue_capacity size) q → q ≤ task_queue_capacity size) ∧
    (drain_exit (task_lower_bound size) obs = some (qe, te) →
      qe ≤ task_lower_bound size ∨ te = true) := by
  refine ⟨?_, ?_, ?_⟩
  · unfold task_queue_capacity executor_count
    omega
  · intro h
    induction h with
    | empty => exact Nat.zero_le _
    | put _ hlt _ => omega
    | take h hpos ih => omega
  · intro h
    induction obs with
    | nil => simp [drain_exit] at h
    | cons ob obs ih =>
        unfold drain_exit at h
        by_cases hg : drain_guard (task_lower_bound size) ob.1 ob.2 = true
        · rw [if_pos hg] at h
          exact ih h
        · rw [if_neg hg] at h
          simp only [Option.some.injEq] at h
          unfold drain_guard at hg
          simp only [Bool.and_eq_true, decide_eq_true_eq, Bool.not_eq_true',
            not_and] at hg
          rcases Nat.lt_or_ge (task_lower_bound size) ob.1 with hlt | hle
          · have hob := hg hlt
            right
            subst h
            simpa using hob
          · left
            subst h
            simpa using hle

/-- Witness for C4 (amended) at MPI world size 3. -/
theorem master_queue_bounds_witness :
    task_queue_capacity 3 = 2 * (executor_count 3 + 1) :=
  (master_queue_bounds 3 0 0 false [] (by decide)).1

end ParamMCTS
